import Mathlib

/-!
# Verification of the RAGIT history-reconstruction engine and sync pipeline

Shallow embedding of the core algorithms of the RAGIT repository:

* `rag_worker/git_service/history_tracker.py` — `GitHistoryManager`,
  `CodeParser`, `DiffGenerator`, `FunctionHistoryTracker`;
* `rag_worker/git_service/service.py` — `GitService.pull_repository`,
  `GitService._format_source_file`, `GitService.diff_files`;
* `rag_worker/tasks.py` — `update_repository_pipeline`;
* `backend/routers/repository.py` — the `sync_repository` endpoint.

External collaborators (git subprocesses, tree-sitter, the diff-match-patch
library, the database layer, the vector index) are modelled as explicit
parameters or as effect traces, following the boundary description of the
specification.  Text is modelled as `String` / `List Char`; byte sequences as
`List Nat` with each entry a byte value.
-/

/-! ## Line utilities

`splitLinesKE` models Python's `str.splitlines(keepends=True)` for texts whose
line terminators are `"\n"` (or `"\r\n"`, which is kept intact inside a line
ending in `'\n'`).  A lone `'\r'` terminator is not modelled.
-/

def splitLinesKE : List Char → List (List Char)
  | [] => []
  | c :: rest =>
    if c = '\n' then ['\n'] :: splitLinesKE rest
    else
      match splitLinesKE rest with
      | [] => [[c]]
      | l :: ls => (c :: l) :: ls

/-- Python `line.strip()` is falsy exactly when every character is whitespace. -/
def isBlankL (l : List Char) : Bool := l.all (fun c => c.isWhitespace)

/-- Python `s.rstrip('\n')`: drop trailing newline characters only. -/
def rstripNl (s : List Char) : List Char :=
  (s.reverse.dropWhile (fun c => c = '\n')).reverse

/-- Drop the whitespace-only lines of a text (the lines the renderer omits). -/
def dropBlank (s : List Char) : List Char :=
  ((splitLinesKE s).filter (fun l => !(isBlankL l))).flatten

/-- Python `str.strip()`: remove leading and trailing whitespace.  (The library
`String.trim` is definitionally opaque to the kernel, so the strip used by the
embedded code is implemented structurally.) -/
def trimChars (s : List Char) : List Char :=
  ((s.dropWhile (fun c => c.isWhitespace)).reverse.dropWhile (fun c => c.isWhitespace)).reverse

def pyStrip (s : String) : String := String.mk (trimChars s.data)

/-- Python `str.split('\n')`: split at every newline, keeping empty segments. -/
def splitOnNl : List Char → List (List Char)
  | [] => [[]]
  | c :: rest =>
    let r := splitOnNl rest
    if c = '\n' then [] :: r
    else
      match r with
      | [] => [[c]]
      | l :: ls => (c :: l) :: ls

def pySplitNl (s : String) : List String := (splitOnNl s.data).map String.mk

/-! ## Diff renderer (`DiffGenerator.generate_highlighted_diff`)

Steps 1–3 of `generate_highlighted_diff` call the external diff-match-patch
library (`diff_linesToChars`, `diff_main`, `diff_charsToLines`); their composite
is a line-level diff, modelled as a `lineDiff` parameter producing a list of
(operation, text) pairs.  Step 4, the rendering loop that belongs to this
repository, is `renderOps`.
-/

inductive DiffOp where
  | del
  | ins
  | eq
deriving DecidableEq

/-- The two-character marker the renderer puts in front of each line. -/
def opMark : DiffOp → List Char
  | DiffOp.ins => ['+', ' ']
  | DiffOp.del => ['-', ' ']
  | DiffOp.eq => [' ', ' ']

/-- The lines of one diff chunk that survive the `if not line.strip(): continue`
filter of the rendering loop. -/
def keptLines (data : List Char) : List (List Char) :=
  (splitLinesKE data).filter (fun l => !(isBlankL l))

/-- Step 4 of `generate_highlighted_diff`: split every chunk into lines, drop
whitespace-only lines, mark each remaining line with `"+ "`, `"- "` or `"  "`,
and concatenate. -/
def renderOps (diffs : List (DiffOp × List Char)) : List Char :=
  (diffs.map (fun od => ((keptLines od.2).map (fun l => opMark od.1 ++ l)).flatten)).flatten

/-- The rendered, prefixed lines one diff chunk contributes to the output. -/
def unitsOf (od : DiffOp × List Char) : List (List Char) :=
  (keptLines od.2).map (fun l => opMark od.1 ++ l)

/-- Selector for the chunks contributing to the after side of a diff. -/
def notDel : DiffOp → Bool
  | DiffOp.del => false
  | _ => true

/-- Selector for the chunks contributing to the before side of a diff. -/
def notIns : DiffOp → Bool
  | DiffOp.ins => false
  | _ => true

/-- Selector for insertion chunks only. -/
def isIns : DiffOp → Bool
  | DiffOp.ins => true
  | _ => false

/-- Concatenation of the chunks of one side of a diff (diff-match-patch
invariant: keeping non-insert chunks yields `text1`, non-delete chunks
`text2`). -/
def sideText (keep : DiffOp → Bool) (diffs : List (DiffOp × List Char)) : List Char :=
  (diffs.filterMap (fun od => if keep od.1 then some od.2 else none)).flatten

/-- Parse a rendered diff: concatenate the payloads of the lines carrying the
given two-character marker. -/
def markedLines (mark : List Char) (rendered : List Char) : List Char :=
  ((splitLinesKE rendered).filterMap
    (fun l => if l.take 2 = mark then some (l.drop 2) else none)).flatten

/-- Parse a rendered diff: concatenate the payloads of the lines NOT carrying
the given two-character marker (e.g. excluding `"- "` yields the after side). -/
def reconstructSide (excl : List Char) (rendered : List Char) : List Char :=
  ((splitLinesKE rendered).filterMap
    (fun l => if l.take 2 = excl then none else some (l.drop 2))).flatten

/-- `DiffGenerator.generate_highlighted_diff`, parameterized by the external
line-level diff backend. -/
def generate_highlighted_diff (lineDiff : List Char → List Char → List (DiffOp × List Char))
    (text1 text2 : List Char) : List Char :=
  renderOps (lineDiff text1 text2)

/-- Model of the diff-match-patch line-level diff restricted to its documented
early returns: equal texts give one equality chunk (none when empty), an empty
`text1` gives a single insertion of `text2`, an empty `text2` a single deletion
of `text1`.  For the remaining inputs it returns the coarse (but
contract-valid) delete-all/insert-all diff; only the early-return cases are
relied upon in the development. -/
def dmpLineDiffModel (text1 text2 : List Char) : List (DiffOp × List Char) :=
  if text1 = text2 then (if text1 = [] then [] else [(DiffOp.eq, text1)])
  else if text1 = [] then [(DiffOp.ins, text2)]
  else if text2 = [] then [(DiffOp.del, text1)]
  else [(DiffOp.del, text1), (DiffOp.ins, text2)]

/-! ## `GitHistoryManager.get_file_content_at_commit`

The blob lookup (`commit.tree / file_path`) is modelled by an `Option (List
Nat)` argument: `none` when the path is not present at that commit (the
`KeyError`/`ValueError` branch of the source).  The four encodings tried are
`utf-8`, `cp949`, `euc-kr`, `latin-1`; the first three are modelled as partial
decoding functions supplied by the caller, while `latin-1` is implemented: it
maps every byte to the Unicode code point of the same value and can never
fail.  The final lossy fallback (`decode('utf-8', errors='replace')`) is the
total function `utf8Replace`. -/

def latin1Decode (raw : List Nat) : Option String :=
  some (String.mk (raw.map (fun b => Char.ofNat (b % 256))))

def get_file_content_at_commit (decUtf8 decCp949 decEuckr : List Nat → Option String)
    (utf8Replace : List Nat → String) (blob : Option (List Nat)) : Option String :=
  match blob with
  | none => none
  | some raw =>
    match decUtf8 raw with
    | some content => some content
    | none =>
      match decCp949 raw with
      | some content => some content
      | none =>
        match decEuckr raw with
        | some content => some content
        | none =>
          match latin1Decode raw with
          | some content => some content
          | none => some (utf8Replace raw)

/-! ## `CodeParser.find_node_body`

tree-sitter (`parser.parse`, `language.query`, `query.captures`) is external;
it is modelled by a `captures` parameter mapping a query string and a source
text to the list of captured nodes.  The query strings built by string
formatting from `self.QUERIES` are reproduced by `queryTemplate`. -/

structure TSNode where
  type : String
  text : String
deriving DecidableEq

/-- The keys of `CodeParser.QUERIES`. -/
def queriesKeys : List String := ["function", "async_function", "class", "module", "script"]

/-- `self.QUERIES[node_type].format(node_name)` (whitespace condensed). -/
def queryTemplate (node_type node_name : String) : String :=
  if node_type = "class" then
    "(class_definition name: (identifier) @node.name (#eq? @node.name \"" ++ node_name ++ "\")) @node.def"
  else if node_type = "module" ∨ node_type = "script" then
    "(module) @node.def"
  else
    "(function_definition name: (identifier) @node.name (#eq? @node.name \"" ++ node_name ++ "\")) @node.def"

/-- `CodeParser.find_node_body`.  An unsupported `node_type` prints a message
and returns `None`; `module`/`script` return the requested 1-based inclusive
line range (or the whole text) right-stripped of newlines; `function`/`class`
kinds return the text of the first captured node whose type is a function or
class definition, or `None` when there is no such capture. -/
def find_node_body (captures : String → String → List TSNode)
    (source_code node_name node_type : String)
    (start_line end_line : Option Nat) : Option String :=
  if !(queriesKeys.contains node_type) then none
  else if node_type = "module" ∨ node_type = "script" then
    match start_line, end_line with
    | some s, some e =>
      some (String.mk (rstripNl ((((splitLinesKE source_code.data).drop (s - 1)).take (e - (s - 1))).flatten)))
    | _, _ => some (String.mk (rstripNl source_code.data))
  else
    match (captures (queryTemplate node_type node_name) source_code).find?
        (fun n => n.type = "function_definition" ∨ n.type = "class_definition") with
    | some n => some n.text
    | none => none

/-! ## `FunctionHistoryTracker.trace_history`

Commits are the metadata quadruples the tracker reads; `contentAt` models
`GitHistoryManager.get_file_content_at_commit` for the fixed traced path;
`find` models `self.parser.find_node_body` applied to a source text with the
fixed `node_name`/`node_type`/line-range arguments; `genDiff` models
`self.diff_generator.generate_highlighted_diff`. -/

structure CommitMeta where
  hexsha : String
  message : String
  authorName : String
  date : String
deriving DecidableEq, Inhabited

/-- The `CommitChange` dataclass of `rag_worker/git_service/types.py`. -/
structure CommitChange where
  commit_hash : String
  commit_message : String
  author : String
  date : String
  code_before : Option String
  code_after : Option String
  highlighted_diff : String
deriving DecidableEq, Inhabited

/-- Construction of one `CommitChange` record as `trace_history` builds it:
truncated hash, stripped message, and a diff of the `or ""`-defaulted texts. -/
def mkChange (genDiff : String → String → String) (c : CommitMeta)
    (code_before code_after : Option String) : CommitChange :=
  { commit_hash := String.mk (c.hexsha.data.take 7)
    commit_message := pyStrip c.message
    author := c.authorName
    date := c.date
    code_before := code_before
    code_after := code_after
    highlighted_diff := genDiff (code_before.getD "") (code_after.getD "") }

/-- Reduction of a file content to the compared value: the whole content in
whole-file mode (`node_type is None or node_name is None`), otherwise the
structural lookup applied when content exists (`None` stays `None`). -/
def traceRed (node_name node_type : Option String) (find : String → Option String)
    (content : Option String) : Option String :=
  if node_type.isNone || node_name.isNone then content else content.bind find

/-- One iteration of the adjacent-pair loop of `trace_history` at index `i`. -/
def pairStep (genDiff : String → String → String) (contentAt : String → Option String)
    (red : Option String → Option String) (commits : List CommitMeta)
    (history : List CommitChange) (i : Nat) : List CommitChange :=
  let current := commits.getD i default
  let parent := commits.getD (i + 1) default
  let code_after := red (contentAt current.hexsha)
  let code_before := red (contentAt parent.hexsha)
  if code_after = none ∧ code_before = none then history
  else if code_after ≠ code_before then history ++ [mkChange genDiff current code_before code_after]
  else history

/-- The adjacent-pair loop of `trace_history`: `for i in range(len(commits) - 1)`. -/
def pairHistory (genDiff : String → String → String) (contentAt : String → Option String)
    (red : Option String → Option String) (commits : List CommitMeta) : List CommitChange :=
  (List.range (commits.length - 1)).foldl (pairStep genDiff contentAt red commits) []

/-- `FunctionHistoryTracker.trace_history`: empty commit list gives an empty
history; otherwise walk adjacent pairs newest-first, then evaluate the oldest
commit in isolation and append a creation record when its reduced value exists
and is not already some record's `code_before`. -/
def trace_history (genDiff : String → String → String) (contentAt : String → Option String)
    (node_name node_type : Option String) (find : String → Option String)
    (commits : List CommitMeta) : List CommitChange :=
  if commits.isEmpty then []
  else
    let red := traceRed node_name node_type find
    let history := pairHistory genDiff contentAt red commits
    let first := commits.getLastD default
    let first_code := red (contentAt first.hexsha)
    match first_code with
    | some fc =>
      if history.any (fun c => c.code_before = some fc) then history
      else history ++ [mkChange genDiff first none (some fc)]
    | none => history

/-- Specification-side description of the pair loop: what one adjacent pair
`(current, parent)` contributes — nothing when both reduced values are absent
or equal, one record otherwise. -/
def pairEmit (genDiff : String → String → String) (contentAt : String → Option String)
    (red : Option String → Option String) (p : CommitMeta × CommitMeta) : Option CommitChange :=
  let code_after := red (contentAt p.1.hexsha)
  let code_before := red (contentAt p.2.hexsha)
  if code_after = none ∧ code_before = none then none
  else if code_after ≠ code_before then some (mkChange genDiff p.1 code_before code_after)
  else none

/-! ## `GitService` (`rag_worker/git_service/service.py`)

`GitCommandRunner.run` either raises (`GitCommandError` carrying the stderr
text, or `GitTimeoutError`) or returns the command's stdout; it is modelled as
an environment function from the command word list to `Except String String`.
`RepositoryManager` existence checks are the `repoExists` flag.  Each service
call also yields the trace of git commands it actually executed. -/

structure GitEnv where
  repoExists : Bool
  run : List String → Except String String

/-- The `PullResult` TypedDict of `rag_worker/git_service/types.py`. -/
structure PullResult where
  success : Bool
  repo_name : String
  repo_path : String
  message : Option String
  error : Option String
deriving DecidableEq

/-- `RepositoryManager.get_repo_path`: base path `repository/` joined with the
repository name. -/
def repoPathOf (repo_name : String) : String := "repository/" ++ repo_name

/-- `GitService.pull_repository`: validate existence, `git checkout main`,
then `git pull`; any raised error is caught and returned as a failure
result. -/
def pull_repository (env : GitEnv) (repo_name : String) : PullResult × List (List String) :=
  if !env.repoExists then
    ({ success := false, repo_name := repo_name, repo_path := "", message := none,
       error := some ("Repository " ++ repo_name ++ " not found") }, [])
  else
    match env.run ["git", "checkout", "main"] with
    | Except.error e =>
      ({ success := false, repo_name := repo_name, repo_path := "", message := none,
         error := some e }, [["git", "checkout", "main"]])
    | Except.ok _ =>
      match env.run ["git", "pull"] with
      | Except.error e =>
        ({ success := false, repo_name := repo_name, repo_path := "", message := none,
           error := some e }, [["git", "checkout", "main"], ["git", "pull"]])
      | Except.ok out =>
        ({ success := true, repo_name := repo_name, repo_path := repoPathOf repo_name,
           message := some out, error := none },
         [["git", "checkout", "main"], ["git", "pull"]])

/-- Split a path at its last `'/'`: directory part (separator included) and
final component. -/
def lastSepSplit (cs : List Char) : List Char × List Char :=
  let nameRev := cs.reverse.takeWhile (fun c => c ≠ '/')
  (cs.take (cs.length - nameRev.length), nameRev.reverse)

/-- Length of `pathlib.Path(name).suffix`: the part from the last dot when that
dot is neither the first nor the last character of the name, else 0. -/
def pySuffixLen (name : List Char) : Nat :=
  let afterRev := name.reverse.takeWhile (fun c => c ≠ '.')
  if afterRev.length = name.length then 0
  else
    let i := name.length - 1 - afterRev.length
    if 0 < i ∧ i < name.length - 1 then name.length - i else 0

/-- `str(Path(p).with_suffix(".json"))`: replace the final component's suffix
with `.json`, or append `.json` when the component has no suffix. -/
def withSuffixJson (p : String) : String :=
  let dn := lastSepSplit p.data
  let name := dn.2
  let k := pySuffixLen name
  let newName := if k = 0 then name ++ ".json".data
                 else name.take (name.length - k) ++ ".json".data
  String.mk (dn.1 ++ newName)

/-- `GitService._format_source_file`: map every path's extension to `.json`. -/
def format_source_file (file_paths : List String) : List String :=
  file_paths.map withSuffixJson

/-- Result dictionary of `GitService.diff_files`. -/
structure DiffFilesResult where
  success : Bool
  files : List String
  message : Option String
  error : Option String
deriving DecidableEq

/-- `GitService.diff_files`: validate existence, `git fetch`, then
`git diff --name-only HEAD origin/main`; parse stdout into lines and format
each path with `_format_source_file`.  Raised errors are caught and returned
as a failure with an empty file list. -/
def diff_files (env : GitEnv) (repo_name : String) : DiffFilesResult × List (List String) :=
  if !env.repoExists then
    ({ success := false, files := [], message := none,
       error := some ("Repository " ++ repo_name ++ " not found") }, [])
  else
    match env.run ["git", "fetch"] with
    | Except.error e =>
      ({ success := false, files := [], message := none, error := some e }, [["git", "fetch"]])
    | Except.ok _ =>
      match env.run ["git", "diff", "--name-only", "HEAD", "origin/main"] with
      | Except.error e =>
        ({ success := false, files := [], message := none, error := some e },
         [["git", "fetch"], ["git", "diff", "--name-only", "HEAD", "origin/main"]])
      | Except.ok stdout =>
        let raw := if pyStrip stdout = "" then [] else pySplitNl (pyStrip stdout)
        let formatted := format_source_file raw
        ({ success := true, files := formatted,
           message := some ("Found " ++ toString formatted.length ++ " changed files between local and remote."),
           error := none },
         [["git", "fetch"], ["git", "diff", "--name-only", "HEAD", "origin/main"]])

/-! ## `update_repository_pipeline` (`rag_worker/tasks.py`)

The collaborating services are modelled as an environment of step outcomes:
`diffResult` for `git_service.diff_files` (failure carries its error text),
`pullResult` for `git_service.pull_repository`, `deleteResult` for
`vector_db_service.delete_entities`, `parseResult` for
`parser_service.parse_repository` (success carries `total_files`),
`parsedExists` for the `json_file_path.exists()` check, and `embedResult` for
`vector_db_service.embed_documents` per changed file (success carries
`inserted_count`).  `RepositoryService.update_repository_status(db, repo_id,
status, vectordb_status)` persists the two status columns of the `Repository`
model (`status` first, as evidenced by the model definition in
`rag_worker/models/repository.py` and by the `sync_repository` guard reading
`repository.status`); it is modelled as appending the argument pair to the
`statusUpdates` effect trace.  The other effect-trace fields count or list the
service invocations the pipeline actually performed. -/

structure UpdateEnv where
  diffResult : Except String (List String)
  pullResult : Except String String
  deleteResult : Except String Unit
  parseResult : Except String Nat
  parsedExists : String → Bool
  embedResult : String → Except String Nat

/-- The result dictionary returned by `update_repository_pipeline` (absent
dictionary keys become `none` / `0`). -/
structure UpdateOutcome where
  success : Bool
  step : Option String
  error : Option String
  deleted_count : Nat
  embedded_count : Nat
  file_count : Nat
  message : Option String
deriving DecidableEq

/-- Side effects performed by one pipeline run. -/
structure UpdateTrace where
  statusUpdates : List (String × String)
  pullCalls : Nat
  deleteCalls : List (List String)
  parseCalls : Nat
  embedCalls : List String
  fileCountUpdates : List Nat
deriving DecidableEq

/-- The per-file re-embedding loop (step 5): skip files whose parsed JSON does
not exist, abort on the first failed embedding (the error carries the failing
file name), otherwise sum the inserted counts.  The second component lists the
files actually submitted for embedding. -/
def runEmbeds (hasParsed : String → Bool) (embed : String → Except String Nat) :
    List String → Except String Nat × List String
  | [] => (Except.ok 0, [])
  | f :: rest =>
    if hasParsed f then
      match embed f with
      | Except.error _ => (Except.error f, [f])
      | Except.ok n =>
        match runEmbeds hasParsed embed rest with
        | (Except.ok m, calls) => (Except.ok (n + m), f :: calls)
        | (Except.error g, calls) => (Except.error g, f :: calls)
    else runEmbeds hasParsed embed rest

/-- `update_repository_pipeline`: diff, pull, batched delete of changed files'
index entries, whole-repository reparse, re-embedding of changed files only,
with the status writes and early returns of the source. -/
def update_repository_pipeline (env : UpdateEnv) : UpdateOutcome × UpdateTrace :=
  let su0 : List (String × String) := [("updating", "pending")]
  match env.diffResult with
  | Except.error e =>
    ({ success := false, step := some "diff", error := some ("Failed to get diff: " ++ e),
       deleted_count := 0, embedded_count := 0, file_count := 0, message := none },
     { statusUpdates := su0 ++ [("active", "error")], pullCalls := 0, deleteCalls := [],
       parseCalls := 0, embedCalls := [], fileCountUpdates := [] })
  | Except.ok files =>
    match env.pullResult with
    | Except.error e =>
      ({ success := false, step := some "pull", error := some ("Git pull failed: " ++ e),
         deleted_count := 0, embedded_count := 0, file_count := 0, message := none },
       { statusUpdates := su0 ++ [("error", "error")], pullCalls := 1, deleteCalls := [],
         parseCalls := 0, embedCalls := [], fileCountUpdates := [] })
    | Except.ok _ =>
      let su1 := su0 ++ [("updating", "updating")]
      let afterDelete := fun (deleted_count : Nat) (deleteCalls : List (List String)) =>
        match env.parseResult with
        | Except.error e =>
          ({ success := false, step := some "parse", error := some ("Parsing failed: " ++ e),
             deleted_count := deleted_count, embedded_count := 0, file_count := 0, message := none },
           { statusUpdates := su1 ++ [("error", "error")], pullCalls := 1, deleteCalls := deleteCalls,
             parseCalls := 1, embedCalls := [], fileCountUpdates := [] })
        | Except.ok total_files =>
          match runEmbeds env.parsedExists env.embedResult files with
          | (Except.error f, calls) =>
            ({ success := false, step := some "embed", error := some ("Embedding failed for " ++ f),
               deleted_count := deleted_count, embedded_count := 0, file_count := total_files,
               message := none },
             { statusUpdates := su1 ++ [("active", "error")], pullCalls := 1,
               deleteCalls := deleteCalls, parseCalls := 1, embedCalls := calls,
               fileCountUpdates := [total_files] })
          | (Except.ok total, calls) =>
            ({ success := true, step := none, error := none, deleted_count := deleted_count,
               embedded_count := total, file_count := total_files,
               message := some "Repository updated successfully" },
             { statusUpdates := su1 ++ [("active", "active")], pullCalls := 1,
               deleteCalls := deleteCalls, parseCalls := 1, embedCalls := calls,
               fileCountUpdates := [total_files] })
      if files.isEmpty then afterDelete 0 []
      else
        match env.deleteResult with
        | Except.error e =>
          ({ success := false, step := some "delete_entities",
             error := some ("Failed to delete entities: " ++ e),
             deleted_count := 0, embedded_count := 0, file_count := 0, message := none },
           { statusUpdates := su1 ++ [("active", "error")], pullCalls := 1,
             deleteCalls := [files], parseCalls := 0, embedCalls := [], fileCountUpdates := [] })
        | Except.ok _ => afterDelete files.length [files]

/-! ## `sync_repository` (`backend/routers/repository.py`)

Permission checking and the repository lookup are backend services outside the
traced logic; they enter as environment fields.  `celery_app.send_task` either
raises or returns a task handle; the handler performs no status write of its
own.  The statuses treated as "sync already in flight" are the guard list of
the endpoint. -/

def inflightStatuses : List String := ["syncing", "updating", "pending"]

structure RepoRecord where
  id : String
  name : String
  status : String
deriving DecidableEq

structure SyncReqEnv where
  permission : Bool
  repo : Option RepoRecord
  send : Except String String

inductive SyncResponse where
  | accepted (message : String) (taskId : String) (repoId : String)
  | rejected (code : Nat) (detail : String)
deriving DecidableEq

structure SyncTrace where
  tasksSent : List String
  statusWrites : List (String × String)
deriving DecidableEq

/-- The `POST /api/repositories/\x7brepo_id\x7d/sync` handler: 403 without admin
permission, 404 for an unknown repository, 400 (already being processed) when
the repository status is in flight, 500 when the task dispatch raises, and an
accepted response carrying the Celery task id otherwise. -/
def sync_repository (env : SyncReqEnv) : SyncResponse × SyncTrace :=
  if !env.permission then
    (SyncResponse.rejected 403 "You don't have permission to sync this repository",
     { tasksSent := [], statusWrites := [] })
  else
    match env.repo with
    | none => (SyncResponse.rejected 404 "Repository not found", { tasksSent := [], statusWrites := [] })
    | some repo =>
      if repo.status ∈ inflightStatuses then
        (SyncResponse.rejected 400
          ("Repository is already being processed (status: " ++ repo.status ++ ")"),
         { tasksSent := [], statusWrites := [] })
      else
        match env.send with
        | Except.error e =>
          (SyncResponse.rejected 500 ("Failed to start sync task: " ++ e),
           { tasksSent := [], statusWrites := [] })
        | Except.ok tid =>
          (SyncResponse.accepted ("Repository sync started for '" ++ repo.name ++ "'") tid repo.id,
           { tasksSent := ["rag_worker.tasks.update_repository_pipeline"], statusWrites := [] })

/-! ### Sequential single-writer model of repeated sync requests

The specification mandates strictly sequential, single-writer state
transitions (§3, §5).  Under that scheduling model a trigger that passes the
guard is immediately followed by the dispatched pipeline's first persisted
action, which sets the repository status to `"updating"`
(`update_repository_pipeline`, step 1); a finishing pipeline persists its
terminal status (`"active"` or `"error"`).  The second component counts syncs
in flight. -/

inductive SyncEvent where
  | trigger
  | finish (terminal : String)

/-- One event of the sequential model applied to (status, in-flight count). -/
def syncStep : String × Nat → SyncEvent → String × Nat
  | (st, n), SyncEvent.trigger => if st ∈ inflightStatuses then (st, n) else ("updating", n + 1)
  | (_, n), SyncEvent.finish t => (t, n - 1)

/-- A run of the sequential model from an initial state. -/
def syncRun (init : String × Nat) (evs : List SyncEvent) : String × Nat :=
  evs.foldl syncStep init

/-- Terminal statuses a finishing pipeline may persist (both terminal status
writes of `update_repository_pipeline` end in `"active"` or `"error"`). -/
def terminalOk (e : SyncEvent) : Prop :=
  match e with
  | SyncEvent.trigger => True
  | SyncEvent.finish t => ¬ t ∈ inflightStatuses

/-! ## Theorems -/

theorem splitLinesKE_nil : splitLinesKE [] = [] := rfl

theorem splitLinesKE_cons_nl (rest : List Char) :
    splitLinesKE ('\n' :: rest) = ['\n'] :: splitLinesKE rest := by
  simp [splitLinesKE]

theorem splitLinesKE_cons_ne (c : Char) (rest : List Char) (h : c ≠ '\n') :
    splitLinesKE (c :: rest) =
      match splitLinesKE rest with
      | [] => [[c]]
      | l :: ls => (c :: l) :: ls := by
  simp [splitLinesKE, h]

theorem splitLinesKE_eq_nil_iff (s : List Char) : splitLinesKE s = [] ↔ s = [] := by
  constructor
  · intro h
    cases s with
    | nil => rfl
    | cons c rest =>
      by_cases hc : c = '\n'
      · subst hc; rw [splitLinesKE_cons_nl] at h; cases h
      · rw [splitLinesKE_cons_ne c rest hc] at h
        cases hsp : splitLinesKE rest with
        | nil => rw [hsp] at h; cases h
        | cons l ls => rw [hsp] at h; cases h
  · intro h; subst h; rfl

theorem splitLinesKE_join (s : List Char) : (splitLinesKE s).flatten = s := by
  induction s with
  | nil => rfl
  | cons c rest ih =>
    by_cases hc : c = '\n'
    · subst hc; rw [splitLinesKE_cons_nl]; simp [ih]
    · rw [splitLinesKE_cons_ne c rest hc]
      cases hsp : splitLinesKE rest with
      | nil =>
        have : rest = [] := (splitLinesKE_eq_nil_iff rest).mp hsp
        subst this; simp
      | cons l ls =>
        have := ih
        rw [hsp] at this
        simp only [List.flatten_cons] at this ⊢
        simp [← this]

theorem splitLinesKE_ne_nil_mem (s : List Char) :
    ∀ l ∈ splitLinesKE s, l ≠ [] := by
  induction s with
  | nil => intro l hl; cases hl
  | cons c rest ih =>
    by_cases hc : c = '\n'
    · subst hc
      rw [splitLinesKE_cons_nl]
      intro l hl
      rcases List.mem_cons.mp hl with h | h
      · subst h; simp
      · exact ih l h
    · rw [splitLinesKE_cons_ne c rest hc]
      cases hsp : splitLinesKE rest with
      | nil =>
        intro l hl
        rcases List.mem_cons.mp hl with h | h
        · subst h; simp
        · cases h
      | cons x xs =>
        intro l hl
        rcases List.mem_cons.mp hl with h | h
        · subst h; simp
        · exact ih l (by rw [hsp]; exact List.mem_cons_of_mem x h)
/-! ### C8 — encoding fallback chain of `get_file_content_at_commit` -/

/-- C8: for every path present at a commit, `get_file_content_at_commit`
returns a decoded string for any stored byte sequence — the encoding chain
ends in total stages (latin-1, then lossy UTF-8 replacement), so a decode
failure is never propagated; UTF-8 is consulted first; and the absent result
`none` arises exactly when the blob is absent, so absence is distinguishable
from decode failure. -/
theorem content_decode_never_fails (decUtf8 decCp949 decEuckr : List Nat → Option String)
    (utf8Replace : List Nat → String) (blob : Option (List Nat)) :
    ((get_file_content_at_commit decUtf8 decCp949 decEuckr utf8Replace blob).isSome = blob.isSome)
    ∧ (∀ raw s, blob = some raw → decUtf8 raw = some s →
        get_file_content_at_commit decUtf8 decCp949 decEuckr utf8Replace blob = some s)
    ∧ (get_file_content_at_commit decUtf8 decCp949 decEuckr utf8Replace blob = none ↔ blob = none) := by
  refine ⟨?_, ?_, ?_⟩
  · cases blob with
    | none => rfl
    | some raw =>
      simp only [get_file_content_at_commit, latin1Decode]
      cases decUtf8 raw <;> cases decCp949 raw <;> cases decEuckr raw <;> rfl
  · intro raw s hb hd
    subst hb
    simp [get_file_content_at_commit, hd]
  · cases blob with
    | none => simp [get_file_content_at_commit]
    | some raw =>
      simp only [get_file_content_at_commit, latin1Decode]
      cases decUtf8 raw <;> cases decCp949 raw <;> cases decEuckr raw <;> simp

/-- Witness for C8 at a concrete blob whose UTF-8 decode succeeds. -/
theorem content_decode_never_fails_w :
    get_file_content_at_commit (fun _ => some "ok") (fun _ => none) (fun _ => none)
      (fun _ => "") (some [104, 105]) = some "ok" :=
  (content_decode_never_fails (fun _ => some "ok") (fun _ => none) (fun _ => none)
    (fun _ => "") (some [104, 105])).2.1 [104, 105] "ok" rfl rfl

/-! ### C10 — `pull_repository` checks out `main` before pulling -/

/-- C10: for an existing repository, `pull_repository` always issues
`git checkout main` as its first command; if that checkout fails (e.g. no
branch named `main`), the result is a failure carrying the git error text and
`git pull` is never executed; and whenever `git pull` runs, it runs strictly
after a successful `git checkout main`. -/
theorem pull_checks_out_main_first (env : GitEnv) (repo_name : String)
    (h : env.repoExists = true) :
    (pull_repository env repo_name).2.head? = some ["git", "checkout", "main"]
    ∧ (∀ e, env.run ["git", "checkout", "main"] = Except.error e →
        (pull_repository env repo_name).1.success = false
        ∧ (pull_repository env repo_name).1.error = some e
        ∧ ¬ ["git", "pull"] ∈ (pull_repository env repo_name).2)
    ∧ (["git", "pull"] ∈ (pull_repository env repo_name).2 →
        (pull_repository env repo_name).2 = [["git", "checkout", "main"], ["git", "pull"]]) := by
  unfold pull_repository
  rw [h]
  simp only [Bool.not_true, Bool.false_eq_true, if_false]
  cases hc : env.run ["git", "checkout", "main"] with
  | error e =>
    refine ⟨rfl, ?_, ?_⟩
    · intro e2 he2
      injection he2 with h3
      subst h3
      refine ⟨rfl, rfl, ?_⟩
      show ¬ ["git", "pull"] ∈ [["git", "checkout", "main"]]
      decide
    · intro hmem
      have h2 : ["git", "pull"] ∈ [["git", "checkout", "main"]] := hmem
      exact absurd h2 (by decide)
  | ok out =>
    cases hp : env.run ["git", "pull"] with
    | error e =>
      exact ⟨rfl, fun e2 he2 => Except.noConfusion he2, fun _ => rfl⟩
    | ok o2 =>
      exact ⟨rfl, fun e2 he2 => Except.noConfusion he2, fun _ => rfl⟩

/-- Witness for C10: a repository whose `git checkout main` fails yields a
failure result with the git error text and no `git pull` invocation. -/
theorem pull_checks_out_main_first_w :
    (pull_repository
        { repoExists := true,
          run := fun c => if c = ["git", "checkout", "main"]
            then Except.error "error: pathspec 'main' did not match" else Except.ok "" }
        "demo").1.success = false
    ∧ (pull_repository
        { repoExists := true,
          run := fun c => if c = ["git", "checkout", "main"]
            then Except.error "error: pathspec 'main' did not match" else Except.ok "" }
        "demo").1.error = some "error: pathspec 'main' did not match"
    ∧ ¬ ["git", "pull"] ∈ (pull_repository
        { repoExists := true,
          run := fun c => if c = ["git", "checkout", "main"]
            then Except.error "error: pathspec 'main' did not match" else Except.ok "" }
        "demo").2 :=
  (pull_checks_out_main_first
    { repoExists := true,
      run := fun c => if c = ["git", "checkout", "main"]
        then Except.error "error: pathspec 'main' did not match" else Except.ok "" }
    "demo" rfl).2.1 "error: pathspec 'main' did not match" rfl
/-! ### C7 — unsupported construct kinds in `find_node_body` -/

/-- Counterexample to C7: a construct kind outside the supported set (here
`"struct"`) yields `none`, the very same value a genuine lookup miss yields
for a supported kind, so the caller cannot distinguish the error from the
absent result. -/
theorem find_node_body_unsupported_cex :
    find_node_body (fun _ _ => []) "def foo(): pass" "foo" "struct" none none = none
    ∧ find_node_body (fun _ _ => []) "x = 1" "foo" "function" none none = none := by
  constructor <;> rfl

/-- C7 amended: calling `find_node_body` with a construct kind outside the
supported set is only logged, and the function returns the absent value
`none` — identical to the result of a lookup miss for a supported kind, so
the two outcomes are not distinguishable from the return value. -/
theorem find_node_body_unsupported_amended (captures : String → String → List TSNode)
    (source_code node_name node_type : String) (start_line end_line : Option Nat)
    (h : ¬ node_type ∈ queriesKeys) :
    find_node_body captures source_code node_name node_type start_line end_line = none
    ∧ (∀ (captures2 : String → String → List TSNode) (src2 name2 : String),
        (∀ n ∈ captures2 (queryTemplate "function" name2) src2,
          ¬ (n.type = "function_definition" ∨ n.type = "class_definition")) →
        find_node_body captures2 src2 name2 "function" none none = none) := by
  constructor
  · unfold find_node_body
    rw [if_pos (by simp [h])]
  · intro captures2 src2 name2 hmiss
    unfold find_node_body
    rw [if_neg (by decide), if_neg (by decide)]
    rw [List.find?_eq_none.mpr]
    intro n hn
    simpa using hmiss n hn

/-- Witness for C7 amended: the unsupported kind `"struct"` returns `none`,
and a miss with no captures also returns `none`. -/
theorem find_node_body_unsupported_amended_w :
    find_node_body (fun _ _ => []) "def foo(): pass" "foo" "struct" none none = none
    ∧ find_node_body (fun _ _ => []) "x = 1" "bar" "function" none none = none :=
  have h := find_node_body_unsupported_amended (fun _ _ => []) "def foo(): pass" "foo" "struct"
    none none (by decide)
  ⟨h.1, h.2 (fun _ _ => []) "x = 1" "bar" (fun n hn => absurd hn (by simp))⟩
/-! ### C6 — `diff_files` formats the changed paths -/

/-- Counterexample to C6: when git reports that `src/api/utils.py` differs
between HEAD and `origin/main`, `diff_files` does not return that path
unchanged — `_format_source_file` replaces its extension, yielding
`src/api/utils.json`. -/
theorem diff_files_formats_cex :
    (diff_files
        { repoExists := true,
          run := fun c => if c = ["git", "fetch"] then Except.ok ""
            else Except.ok "src/api/utils.py\n" }
        "demo").1.files = ["src/api/utils.json"]
    ∧ ("src/api/utils.json" : String) ≠ "src/api/utils.py" := by
  constructor
  · decide
  · decide

/-- C6 amended: on success `diff_files` returns exactly the newline-separated
paths of `git diff --name-only HEAD origin/main`, in order, each with its file
extension replaced by `.json`; an empty diff yields the empty list with a
success outcome; and the operation runs only the read-only commands
`git fetch` and `git diff`, so it does not mutate the local working copy. -/
theorem diff_files_amended (env : GitEnv) (repo_name fetchOut stdout : String)
    (hex : env.repoExists = true)
    (hf : env.run ["git", "fetch"] = Except.ok fetchOut)
    (hd : env.run ["git", "diff", "--name-only", "HEAD", "origin/main"] = Except.ok stdout) :
    (diff_files env repo_name).1.success = true
    ∧ (diff_files env repo_name).1.files =
        (if pyStrip stdout = "" then [] else pySplitNl (pyStrip stdout)).map withSuffixJson
    ∧ (pyStrip stdout = "" → (diff_files env repo_name).1.files = [])
    ∧ (diff_files env repo_name).2 =
        [["git", "fetch"], ["git", "diff", "--name-only", "HEAD", "origin/main"]]
    ∧ (∀ c ∈ (diff_files env repo_name).2,
        c.head? = some "git" ∧ c.getD 1 "" ∈ (["fetch", "diff"] : List String)) := by
  unfold diff_files
  rw [hex]
  simp only [Bool.not_true, Bool.false_eq_true, if_false]
  rw [hf, hd]
  refine ⟨rfl, rfl, ?_, rfl, ?_⟩
  · intro hempty
    show (format_source_file (if pyStrip stdout = "" then [] else pySplitNl (pyStrip stdout))) = []
    rw [if_pos hempty]
    rfl
  · intro c hc
    have hc2 : c ∈ [["git", "fetch"], ["git", "diff", "--name-only", "HEAD", "origin/main"]] := hc
    rcases List.mem_cons.mp hc2 with h1 | h1
    · subst h1; exact ⟨rfl, by decide⟩
    · rcases List.mem_cons.mp h1 with h2 | h2
      · subst h2; exact ⟨rfl, by decide⟩
      · cases h2

/-- Witness for C6 amended at a no-divergence environment: empty diff output
yields success with an empty file list and only read-only commands. -/
theorem diff_files_amended_w :
    (diff_files { repoExists := true, run := fun _ => Except.ok "" } "demo").1.success = true
    ∧ (diff_files { repoExists := true, run := fun _ => Except.ok "" } "demo").1.files = [] :=
  have h := diff_files_amended { repoExists := true, run := fun _ => Except.ok "" } "demo" "" ""
    rfl rfl rfl
  ⟨h.1, h.2.2.1 (by decide)⟩
/-! ### C3 — empty ChangeSet still reparses, deletes and embeds nothing -/

/-- C3: when change detection succeeds with an empty ChangeSet and the pull
and whole-repository reparse succeed, the pipeline performs the reparse
exactly once, performs no index deletion and no re-embedding, ends with the
persisted state pair `("active", "active")`, and reports
`deleted_count = 0` and `embedded_count = 0`. -/
theorem empty_changeset_pipeline (env : UpdateEnv) (pullMsg : String) (total_files : Nat)
    (hd : env.diffResult = Except.ok [])
    (hp : env.pullResult = Except.ok pullMsg)
    (hparse : env.parseResult = Except.ok total_files) :
    (update_repository_pipeline env).1.success = true
    ∧ (update_repository_pipeline env).1.deleted_count = 0
    ∧ (update_repository_pipeline env).1.embedded_count = 0
    ∧ (update_repository_pipeline env).2.deleteCalls = []
    ∧ (update_repository_pipeline env).2.embedCalls = []
    ∧ (update_repository_pipeline env).2.parseCalls = 1
    ∧ (update_repository_pipeline env).2.statusUpdates.getLast? = some ("active", "active") := by
  unfold update_repository_pipeline
  rw [hd, hp, hparse]
  exact ⟨rfl, rfl, rfl, rfl, rfl, rfl, rfl⟩

/-- Witness for C3 at a concrete environment with an empty ChangeSet. -/
theorem empty_changeset_pipeline_w :
    (update_repository_pipeline
        { diffResult := Except.ok [], pullResult := Except.ok "Already up to date.",
          deleteResult := Except.ok (), parseResult := Except.ok 12,
          parsedExists := fun _ => true, embedResult := fun _ => Except.ok 1 }).1.success = true
    ∧ (update_repository_pipeline
        { diffResult := Except.ok [], pullResult := Except.ok "Already up to date.",
          deleteResult := Except.ok (), parseResult := Except.ok 12,
          parsedExists := fun _ => true, embedResult := fun _ => Except.ok 1 }).1.deleted_count = 0
    ∧ (update_repository_pipeline
        { diffResult := Except.ok [], pullResult := Except.ok "Already up to date.",
          deleteResult := Except.ok (), parseResult := Except.ok 12,
          parsedExists := fun _ => true, embedResult := fun _ => Except.ok 1 }).1.embedded_count = 0 :=
  have h := empty_changeset_pipeline
    { diffResult := Except.ok [], pullResult := Except.ok "Already up to date.",
      deleteResult := Except.ok (), parseResult := Except.ok 12,
      parsedExists := fun _ => true, embedResult := fun _ => Except.ok 1 }
    "Already up to date." 12 rfl rfl rfl
  ⟨h.1, h.2.1, h.2.2.1⟩

/-- Evaluation helper: last element of a two-element list. -/
theorem listGetLastQ_two {α : Type} (a b : α) : [a, b].getLast? = some b := rfl

/-- Evaluation helper: last element of a three-element list. -/
theorem listGetLastQ_three {α : Type} (a b c : α) : [a, b, c].getLast? = some c := rfl

/-! ### C4 — failure handling of the sync pipeline -/

/-- Counterexample to C4: when change detection fails, the pipeline halts with
`success = false` and step `"diff"`, but the repository's persisted state
column is set to `"active"`, not to an error state — only the vector-db
status column records `"error"` (`update_repository_status(db, repo_id,
"active", "error")`). -/
theorem pipeline_failure_state_cex :
    (update_repository_pipeline
        { diffResult := Except.error "fatal: unable to access remote",
          pullResult := Except.ok "", deleteResult := Except.ok (),
          parseResult := Except.ok 0, parsedExists := fun _ => false,
          embedResult := fun _ => Except.ok 0 }).1.success = false
    ∧ (update_repository_pipeline
        { diffResult := Except.error "fatal: unable to access remote",
          pullResult := Except.ok "", deleteResult := Except.ok (),
          parseResult := Except.ok 0, parsedExists := fun _ => false,
          embedResult := fun _ => Except.ok 0 }).1.step = some "diff"
    ∧ (update_repository_pipeline
        { diffResult := Except.error "fatal: unable to access remote",
          pullResult := Except.ok "", deleteResult := Except.ok (),
          parseResult := Except.ok 0, parsedExists := fun _ => false,
          embedResult := fun _ => Except.ok 0 }).2.statusUpdates.map Prod.fst =
        ["updating", "active"]
    ∧ ¬ "error" ∈ (update_repository_pipeline
        { diffResult := Except.error "fatal: unable to access remote",
          pullResult := Except.ok "", deleteResult := Except.ok (),
          parseResult := Except.ok 0, parsedExists := fun _ => false,
          embedResult := fun _ => Except.ok 0 }).2.statusUpdates.map Prod.fst := by
  refine ⟨rfl, rfl, rfl, ?_⟩
  show ¬ "error" ∈ ["updating", "active"]
  decide

/-- C4 amended: every step failure halts the pipeline — no later stage
executes and the result carries `success = false` with the failing step's
name — and no underlying operation is retried; a failure always records an
`"error"` vector-db status, but the persisted repository status column is set
to `"error"` only for pull and reparse (and unexpected) failures, while
change-detection, index-invalidation and re-embedding failures reset it to
`"active"`. -/
theorem pipeline_failure_halts (env : UpdateEnv) :
    ((update_repository_pipeline env).1.success = false ↔
      (update_repository_pipeline env).1.step ≠ none)
    ∧ ((update_repository_pipeline env).1.success = false →
        (update_repository_pipeline env).2.statusUpdates.getLast? = some ("error", "error")
        ∨ (update_repository_pipeline env).2.statusUpdates.getLast? = some ("active", "error"))
    ∧ ((update_repository_pipeline env).1.step = some "diff" →
        (update_repository_pipeline env).2.pullCalls = 0
        ∧ (update_repository_pipeline env).2.deleteCalls = []
        ∧ (update_repository_pipeline env).2.parseCalls = 0
        ∧ (update_repository_pipeline env).2.embedCalls = [])
    ∧ ((update_repository_pipeline env).1.step = some "pull" →
        (update_repository_pipeline env).2.deleteCalls = []
        ∧ (update_repository_pipeline env).2.parseCalls = 0
        ∧ (update_repository_pipeline env).2.embedCalls = []
        ∧ (update_repository_pipeline env).2.statusUpdates.getLast? = some ("error", "error"))
    ∧ ((update_repository_pipeline env).1.step = some "delete_entities" →
        (update_repository_pipeline env).2.parseCalls = 0
        ∧ (update_repository_pipeline env).2.embedCalls = []
        ∧ (update_repository_pipeline env).2.statusUpdates.getLast? = some ("active", "error"))
    ∧ ((update_repository_pipeline env).1.step = some "parse" →
        (update_repository_pipeline env).2.embedCalls = []
        ∧ (update_repository_pipeline env).2.statusUpdates.getLast? = some ("error", "error"))
    ∧ ((update_repository_pipeline env).1.step = some "embed" →
        (update_repository_pipeline env).2.statusUpdates.getLast? = some ("active", "error"))
    ∧ ((update_repository_pipeline env).2.pullCalls ≤ 1
        ∧ (update_repository_pipeline env).2.parseCalls ≤ 1
        ∧ (update_repository_pipeline env).2.deleteCalls.length ≤ 1) := by
  unfold update_repository_pipeline
  cases env.diffResult with
  | error e => simp [listGetLastQ_two]
  | ok files =>
    cases env.pullResult with
    | error e => simp [listGetLastQ_two]
    | ok pm =>
      by_cases hemp : files.isEmpty = true
      · cases env.parseResult with
        | error e => simp [hemp, listGetLastQ_three]
        | ok tf =>
          cases hre : runEmbeds env.parsedExists env.embedResult files with
          | mk r calls =>
            cases r with
            | error f => simp [hemp, hre, listGetLastQ_three]
            | ok total => simp [hemp, hre, listGetLastQ_three]
      · cases env.deleteResult with
        | error e => simp [hemp, listGetLastQ_three]
        | ok u =>
          cases env.parseResult with
          | error e => simp [hemp, listGetLastQ_three]
          | ok tf =>
            cases hre : runEmbeds env.parsedExists env.embedResult files with
            | mk r calls =>
              cases r with
              | error f => simp [hemp, hre, listGetLastQ_three]
              | ok total => simp [hemp, hre, listGetLastQ_three]

/-- Witness for C4 amended at a concrete environment whose pull step fails. -/
theorem pipeline_failure_halts_w :
    (update_repository_pipeline
        { diffResult := Except.ok ["a.json"], pullResult := Except.error "merge conflict",
          deleteResult := Except.ok (), parseResult := Except.ok 3,
          parsedExists := fun _ => true, embedResult := fun _ => Except.ok 2 }).2.deleteCalls = []
    ∧ (update_repository_pipeline
        { diffResult := Except.ok ["a.json"], pullResult := Except.error "merge conflict",
          deleteResult := Except.ok (), parseResult := Except.ok 3,
          parsedExists := fun _ => true, embedResult := fun _ => Except.ok 2 }).2.parseCalls = 0
    ∧ (update_repository_pipeline
        { diffResult := Except.ok ["a.json"], pullResult := Except.error "merge conflict",
          deleteResult := Except.ok (), parseResult := Except.ok 3,
          parsedExists := fun _ => true, embedResult := fun _ => Except.ok 2 }).2.embedCalls = []
    ∧ (update_repository_pipeline
        { diffResult := Except.ok ["a.json"], pullResult := Except.error "merge conflict",
          deleteResult := Except.ok (), parseResult := Except.ok 3,
          parsedExists := fun _ => true, embedResult := fun _ => Except.ok 2
        }).2.statusUpdates.getLast? = some ("error", "error") :=
  (pipeline_failure_halts
    { diffResult := Except.ok ["a.json"], pullResult := Except.error "merge conflict",
      deleteResult := Except.ok (), parseResult := Except.ok 3,
      parsedExists := fun _ => true, embedResult := fun _ => Except.ok 2 }).2.2.2.1 rfl
/-! ### C9 — at most one sync in flight -/

/-- Invariant of the sequential sync model: if at most one sync is in flight
and an in-flight sync forces an in-flight status, then any run whose finish
events carry only terminal statuses preserves both facts. -/
theorem syncRun_invariant (evs : List SyncEvent) :
    ∀ init : String × Nat, init.2 ≤ 1 → (init.2 = 1 → init.1 ∈ inflightStatuses) →
      (∀ e ∈ evs, terminalOk e) →
      (syncRun init evs).2 ≤ 1
      ∧ ((syncRun init evs).2 = 1 → (syncRun init evs).1 ∈ inflightStatuses) := by
  induction evs with
  | nil => intro init h1 h2 _; exact ⟨h1, h2⟩
  | cons e rest ih =>
    intro init h1 h2 hok
    have hstep : (syncStep init e).2 ≤ 1 ∧
        ((syncStep init e).2 = 1 → (syncStep init e).1 ∈ inflightStatuses) := by
      cases e with
      | trigger =>
        cases init with
        | mk st n =>
          by_cases hin : st ∈ inflightStatuses
          · simp only [syncStep, if_pos hin]
            exact ⟨h1, h2⟩
          · simp only [syncStep, if_neg hin]
            constructor
            · have : n = 0 := by
                rcases Nat.lt_or_ge n 1 with h | h
                · omega
                · exfalso
                  have hn1 : n = 1 := by omega
                  exact hin (h2 hn1)
              omega
            · intro _
              decide
      | finish t =>
        cases init with
        | mk st n =>
          constructor
          · show n - 1 ≤ 1
            omega
          · intro hone
            exfalso
            have : n - 1 = 1 := hone
            have hn : n = 2 := by omega
            omega
    have hok2 : ∀ e2 ∈ rest, terminalOk e2 := fun e2 he2 => hok e2 (List.mem_cons_of_mem e he2)
    exact ih (syncStep init e) hstep.1 hstep.2 hok2

/-- C9: a sync request for a repository whose status is in flight (`syncing`,
`updating` or `pending`) is rejected synchronously with the already-processing
error, queues no task, and writes no repository state; consequently, in the
sequential single-writer model the specification mandates — where an accepted
trigger's pipeline immediately persists the in-flight status `"updating"` and
a finishing pipeline persists a terminal status — at most one sync per
repository is ever in flight. -/
theorem sync_rejects_inflight (env : SyncReqEnv) (repo : RepoRecord)
    (hrepo : env.repo = some repo) (hperm : env.permission = true)
    (hst : repo.status ∈ inflightStatuses) :
    sync_repository env =
      (SyncResponse.rejected 400
        ("Repository is already being processed (status: " ++ repo.status ++ ")"),
       { tasksSent := [], statusWrites := [] })
    ∧ (∀ (s0 : String) (evs : List SyncEvent), ¬ s0 ∈ inflightStatuses →
        (∀ e ∈ evs, terminalOk e) → (syncRun (s0, 0) evs).2 ≤ 1) := by
  constructor
  · unfold sync_repository
    rw [hperm, hrepo]
    simp only [Bool.not_true, Bool.false_eq_true, if_false]
    rw [if_pos hst]
  · intro s0 evs _ hok
    exact (syncRun_invariant evs (s0, 0) (by omega) (fun h => by cases h) hok).1

/-- Witness for C9: a repository in status `pulling`-analogue `"updating"`
is rejected with the already-processing message and no dispatched task, and a
concrete trigger/trigger/finish trace never has two syncs in flight. -/
theorem sync_rejects_inflight_w :
    sync_repository
        { permission := true,
          repo := some { id := "r1", name := "RAGIT", status := "updating" },
          send := Except.ok "tid-1" } =
      (SyncResponse.rejected 400 "Repository is already being processed (status: updating)",
       { tasksSent := [], statusWrites := [] })
    ∧ (syncRun ("active", 0)
        [SyncEvent.trigger, SyncEvent.trigger, SyncEvent.finish "active"]).2 ≤ 1 := by
  have h := sync_rejects_inflight
    { permission := true,
      repo := some { id := "r1", name := "RAGIT", status := "updating" },
      send := Except.ok "tid-1" }
    { id := "r1", name := "RAGIT", status := "updating" } rfl rfl (by decide)
  refine ⟨h.1, h.2 "active" _ (by decide) ?_⟩
  intro e he
  rcases List.mem_cons.mp he with h1 | h1
  · subst h1; exact trivial
  · rcases List.mem_cons.mp h1 with h2 | h2
    · subst h2; exact trivial
    · rcases List.mem_cons.mp h2 with h3 | h3
      · subst h3
        show ¬ "active" ∈ inflightStatuses
        decide
      · cases h3
/-! ### C1/C2 — structure of `trace_history` -/

/-- The loop body at index 0 of a two-or-more commit list appends exactly the
contribution `pairEmit` assigns to the newest adjacent pair. -/
theorem pairStep_zero (gd : String → String → String) (ca : String → Option String)
    (red : Option String → Option String) (c1 c2 : CommitMeta) (rest : List CommitMeta)
    (acc : List CommitChange) :
    pairStep gd ca red (c1 :: c2 :: rest) acc 0 = acc ++ (pairEmit gd ca red (c1, c2)).toList := by
  simp only [pairStep, pairEmit, List.getD_cons_zero, List.getD_cons_succ]
  by_cases h1 : red (ca c1.hexsha) = none ∧ red (ca c2.hexsha) = none
  · rw [if_pos h1, if_pos h1]
    simp
  · rw [if_neg h1, if_neg h1]
    by_cases h2 : red (ca c1.hexsha) ≠ red (ca c2.hexsha)
    · rw [if_pos h2, if_pos h2]
      simp
    · rw [if_neg h2, if_neg h2]
      simp

/-- The loop body at index `i + 1` of `c :: cs` is the loop body at `i` of `cs`. -/
theorem pairStep_succ (gd : String → String → String) (ca : String → Option String)
    (red : Option String → Option String) (c : CommitMeta) (cs : List CommitMeta)
    (acc : List CommitChange) (i : Nat) :
    pairStep gd ca red (c :: cs) acc (i + 1) = pairStep gd ca red cs acc i := by
  simp only [pairStep, List.getD_cons_succ]

/-- The indexed fold of the adjacent-pair loop equals the `filterMap` of
`pairEmit` over the zipped adjacent pairs. -/
theorem pairHistory_foldl (gd : String → String → String) (ca : String → Option String)
    (red : Option String → Option String) :
    ∀ (commits : List CommitMeta) (acc : List CommitChange),
      (List.range (commits.length - 1)).foldl (pairStep gd ca red commits) acc
        = acc ++ (commits.zip commits.tail).filterMap (pairEmit gd ca red) := by
  intro commits
  induction commits with
  | nil => intro acc; simp
  | cons c1 cs ih =>
    cases cs with
    | nil => intro acc; simp
    | cons c2 rest =>
      intro acc
      have hlen : (c1 :: c2 :: rest).length - 1 = rest.length + 1 := by simp
      rw [hlen, List.range_succ_eq_map, List.foldl_cons, pairStep_zero, List.foldl_map]
      have hfun : (fun (h : List CommitChange) (i : Nat) =>
          pairStep gd ca red (c1 :: c2 :: rest) h (Nat.succ i)) = pairStep gd ca red (c2 :: rest) := by
        funext h i
        exact pairStep_succ gd ca red c1 (c2 :: rest) h i
      rw [hfun]
      have ih2 := ih (acc ++ (pairEmit gd ca red (c1, c2)).toList)
      simp only [List.length_cons, Nat.add_sub_cancel] at ih2
      rw [ih2]
      rw [List.tail_cons, List.tail_cons, List.zip_cons_cons]
      cases hpe : pairEmit gd ca red (c1, c2) with
      | none => simp [List.filterMap_cons, hpe]
      | some r => simp [List.filterMap_cons, hpe]

/-- For a non-empty commit list, `trace_history` is the pair-loop history
followed by the conditional creation record for the oldest commit. -/
theorem trace_history_eq (gd : String → String → String) (ca : String → Option String)
    (nn nt : Option String) (find : String → Option String)
    (commits : List CommitMeta) (h : commits ≠ []) :
    trace_history gd ca nn nt find commits
      = pairHistory gd ca (traceRed nn nt find) commits ++
        (match traceRed nn nt find (ca (commits.getLast h).hexsha) with
         | none => []
         | some fc =>
           if (pairHistory gd ca (traceRed nn nt find) commits).any
               (fun c => c.code_before = some fc)
           then []
           else [mkChange gd (commits.getLast h) none (some fc)]) := by
  have hlast : commits.getLastD default = commits.getLast h := by
    rw [List.getLastD_eq_getLast?, List.getLast?_eq_getLast commits h]
    rfl
  simp only [trace_history]
  rw [if_neg (by simp [h])]
  rw [hlast]
  cases hfc : traceRed nn nt find (ca (commits.getLast h).hexsha) with
  | none => simp
  | some fc =>
    by_cases hany : (pairHistory gd ca (traceRed nn nt find) commits).any
        (fun c => c.code_before = some fc)
    · simp [hany]
    · simp [hany]
/-- C1: the adjacent-pair walk of `trace_history` emits, for each adjacent
commit pair in order, exactly the record `pairEmit` describes — a record if
and only if the two reduced contents are not both absent and are unequal —
and consequently every record in a traced history has `code_before` different
from `code_after`. -/
theorem trace_history_pair_records (gd : String → String → String) (ca : String → Option String)
    (nn nt : Option String) (find : String → Option String) (commits : List CommitMeta) :
    pairHistory gd ca (traceRed nn nt find) commits
      = (commits.zip commits.tail).filterMap (pairEmit gd ca (traceRed nn nt find))
    ∧ ∀ r ∈ trace_history gd ca nn nt find commits, r.code_before ≠ r.code_after := by
  have h1 : pairHistory gd ca (traceRed nn nt find) commits
      = (commits.zip commits.tail).filterMap (pairEmit gd ca (traceRed nn nt find)) := by
    unfold pairHistory
    rw [pairHistory_foldl]
    simp
  refine ⟨h1, ?_⟩
  intro r hr
  by_cases hne : commits = []
  · subst hne
    simp [trace_history] at hr
  · rw [trace_history_eq gd ca nn nt find commits hne] at hr
    rcases List.mem_append.mp hr with hp | hcrea
    · rw [h1] at hp
      rcases List.mem_filterMap.mp hp with ⟨p, _, hpe⟩
      simp only [pairEmit] at hpe
      by_cases hb : traceRed nn nt find (ca p.1.hexsha) = none
          ∧ traceRed nn nt find (ca p.2.hexsha) = none
      · rw [if_pos hb] at hpe
        cases hpe
      · rw [if_neg hb] at hpe
        by_cases hd : traceRed nn nt find (ca p.1.hexsha) ≠ traceRed nn nt find (ca p.2.hexsha)
        · rw [if_pos hd] at hpe
          injection hpe with hr2
          rw [← hr2]
          dsimp only [mkChange]
          exact fun hcb => hd hcb.symm
        · rw [if_neg hd] at hpe
          cases hpe
    · cases hfc : traceRed nn nt find (ca (commits.getLast hne).hexsha) with
      | none =>
        rw [hfc] at hcrea
        simp at hcrea
      | some fc =>
        rw [hfc] at hcrea
        by_cases hany : (pairHistory gd ca (traceRed nn nt find) commits).any
            (fun c => c.code_before = some fc)
        · simp [hany] at hcrea
        · simp [hany] at hcrea
          rw [hcrea]
          dsimp only [mkChange]
          simp

/-- Witness for C1: in a two-commit history whose content changes, the emitted
record has distinct before/after texts. -/
theorem trace_history_pair_records_w :
    (⟨"aaaaaaa", "second commit", "alice", "2024-01-02", some "old", some "new",
        "old>new"⟩ : CommitChange).code_before ≠
      (⟨"aaaaaaa", "second commit", "alice", "2024-01-02", some "old", some "new",
        "old>new"⟩ : CommitChange).code_after :=
  (trace_history_pair_records (fun a b => a ++ ">" ++ b)
    (fun h => if h = "aaaaaaaaaa" then some "new" else some "old") none none (fun _ => none)
    [⟨"aaaaaaaaaa", "second commit", "alice", "2024-01-02"⟩,
     ⟨"bbbbbbbbbb", "first commit", "alice", "2024-01-01"⟩]).2
    ⟨"aaaaaaa", "second commit", "alice", "2024-01-02", some "old", some "new", "old>new"⟩
    (by decide)

/-- C2: after the pair walk, `trace_history` evaluates the oldest commit in
isolation and appends exactly one creation record — null `code_before`, the
oldest commit's metadata, and a diff rendered from the empty text — if and
only if the oldest reduced value exists and does not occur as a `code_before`
in the pair-walk history; when emitted it is the last element of the
returned list. -/
theorem trace_history_creation_record (gd : String → String → String)
    (ca : String → Option String) (nn nt : Option String) (find : String → Option String)
    (commits : List CommitMeta) (h : commits ≠ []) :
    trace_history gd ca nn nt find commits
      = pairHistory gd ca (traceRed nn nt find) commits ++
        (match traceRed nn nt find (ca (commits.getLast h).hexsha) with
         | none => []
         | some fc =>
           if (pairHistory gd ca (traceRed nn nt find) commits).any
               (fun c => c.code_before = some fc)
           then []
           else [{ commit_hash := String.mk ((commits.getLast h).hexsha.data.take 7),
                   commit_message := pyStrip (commits.getLast h).message,
                   author := (commits.getLast h).authorName,
                   date := (commits.getLast h).date,
                   code_before := none,
                   code_after := some fc,
                   highlighted_diff := gd "" fc }])
    ∧ (∀ fc, traceRed nn nt find (ca (commits.getLast h).hexsha) = some fc →
        (pairHistory gd ca (traceRed nn nt find) commits).any
            (fun c => c.code_before = some fc) = false →
        (trace_history gd ca nn nt find commits).getLast? =
          some { commit_hash := String.mk ((commits.getLast h).hexsha.data.take 7),
                 commit_message := pyStrip (commits.getLast h).message,
                 author := (commits.getLast h).authorName,
                 date := (commits.getLast h).date,
                 code_before := none,
                 code_after := some fc,
                 highlighted_diff := gd "" fc }) := by
  have heq := trace_history_eq gd ca nn nt find commits h
  constructor
  · rw [heq]
    cases traceRed nn nt find (ca (commits.getLast h).hexsha) with
    | none => rfl
    | some fc =>
      by_cases hany : ((pairHistory gd ca (traceRed nn nt find) commits).any
          fun c => c.code_before = some fc)
      · simp [hany]
      · simp [hany, mkChange]
  · intro fc hfc hany
    rw [heq, hfc]
    simp only [hany]
    rw [if_neg (by simp)]
    rw [List.getLast?_concat]
    simp [mkChange]
/-- Witness for C2: a single-commit history with existing content yields
exactly the creation record, as the last (and only) element. -/
theorem trace_history_creation_record_w :
    (trace_history (fun a b => a ++ "|" ++ b) (fun _ => some "body") none none (fun _ => none)
        [⟨"cccccccccc", "init", "bob", "2024-01-01"⟩]).getLast? =
      some ⟨"ccccccc", "init", "bob", "2024-01-01", none, some "body", "|body"⟩ :=
  (trace_history_creation_record (fun a b => a ++ "|" ++ b) (fun _ => some "body") none none
    (fun _ => none) [⟨"cccccccccc", "init", "bob", "2024-01-01"⟩] (by decide)).2 "body" rfl rfl
/-! ### C5 — reconstruction of the diff sides from the rendered output -/

/-- When a text ends in a newline, every line produced by `splitLinesKE` ends
in a newline. -/
theorem splitLinesKE_last_nl (s : List Char) (h : s.getLast? = some '\n') :
    ∀ l ∈ splitLinesKE s, l.getLast? = some '\n' := by
  induction s with
  | nil => cases h
  | cons c rest ih =>
    cases rest with
    | nil =>
      have hc : c = '\n' := by simpa using h
      subst hc
      rw [splitLinesKE_cons_nl]
      intro l hl
      rcases List.mem_cons.mp hl with h1 | h1
      · subst h1; rfl
      · simp [splitLinesKE_nil] at h1
    | cons d ds =>
      rw [List.getLast?_cons_cons] at h
      by_cases hc : c = '\n'
      · subst hc
        rw [splitLinesKE_cons_nl]
        intro l hl
        rcases List.mem_cons.mp hl with h1 | h1
        · subst h1; rfl
        · exact ih h l h1
      · rw [splitLinesKE_cons_ne c _ hc]
        have hspne : splitLinesKE (d :: ds) ≠ [] := by
          intro hcon
          cases (splitLinesKE_eq_nil_iff (d :: ds)).mp hcon
        cases hsplit : splitLinesKE (d :: ds) with
        | nil => exact absurd hsplit hspne
        | cons l0 ls =>
          intro l hl
          have ih2 := ih h
          rw [hsplit] at ih2
          rcases List.mem_cons.mp hl with h1 | h1
          · subst h1
            have hl0 : l0.getLast? = some '\n' := ih2 l0 (List.mem_cons_self l0 ls)
            have hl0ne : l0 ≠ [] := by
              have h3 := splitLinesKE_ne_nil_mem (d :: ds) l0
              rw [hsplit] at h3
              exact h3 (List.mem_cons_self l0 ls)
            cases l0 with
            | nil => exact absurd rfl hl0ne
            | cons x xs =>
              rw [List.getLast?_cons_cons]
              exact hl0
          · exact ih2 l (List.mem_cons_of_mem l0 h1)
/-- Lines produced by `splitLinesKE` contain no interior newline. -/
theorem splitLinesKE_no_mid_nl (s : List Char) :
    ∀ l ∈ splitLinesKE s, ∀ c ∈ l.dropLast, c ≠ '\n' := by
  induction s with
  | nil => intro l hl; cases hl
  | cons c rest ih =>
    by_cases hc : c = '\n'
    · subst hc
      rw [splitLinesKE_cons_nl]
      intro l hl
      rcases List.mem_cons.mp hl with h1 | h1
      · subst h1
        intro x hx
        simp at hx
      · exact ih l h1
    · rw [splitLinesKE_cons_ne c rest hc]
      cases hsplit : splitLinesKE rest with
      | nil =>
        intro l hl
        rcases List.mem_cons.mp hl with h1 | h1
        · subst h1
          intro x hx
          simp at hx
        · cases h1
      | cons l0 ls =>
        have ih2 := ih
        rw [hsplit] at ih2
        intro l hl
        rcases List.mem_cons.mp hl with h1 | h1
        · subst h1
          intro x hx
          have hl0ne : l0 ≠ [] := by
            have h3 := splitLinesKE_ne_nil_mem rest l0
            rw [hsplit] at h3
            exact h3 (List.mem_cons_self l0 ls)
          rw [show c :: l0 = [c] ++ l0 from rfl,
            List.dropLast_append_of_ne_nil _ hl0ne] at hx
          rcases List.mem_append.mp hx with h2 | h2
          · rw [List.mem_singleton.mp h2]
            exact hc
          · exact ih2 l0 (List.mem_cons_self l0 ls) x h2
        · exact ih2 l (List.mem_cons_of_mem l0 h1)

/-- `splitLinesKE` distributes over an append when the first part ends in a
newline. -/
theorem splitLinesKE_append (a b : List Char) (h : a.getLast? = some '\n') :
    splitLinesKE (a ++ b) = splitLinesKE a ++ splitLinesKE b := by
  induction a with
  | nil => cases h
  | cons c rest ih =>
    cases rest with
    | nil =>
      have hc : c = '\n' := by simpa using h
      subst hc
      rw [show (['\n'] : List Char) ++ b = '\n' :: b from rfl]
      rw [splitLinesKE_cons_nl, splitLinesKE_cons_nl, splitLinesKE_nil]
      rfl
    | cons d ds =>
      rw [List.getLast?_cons_cons] at h
      have ihr := ih h
      by_cases hc : c = '\n'
      · subst hc
        rw [show ('\n' :: d :: ds) ++ b = '\n' :: ((d :: ds) ++ b) from rfl]
        rw [splitLinesKE_cons_nl, splitLinesKE_cons_nl, ihr]
        rfl
      · rw [show (c :: d :: ds) ++ b = c :: ((d :: ds) ++ b) from rfl]
        rw [splitLinesKE_cons_ne c _ hc, splitLinesKE_cons_ne c _ hc, ihr]
        have hspne : splitLinesKE (d :: ds) ≠ [] := by
          intro hcon
          cases (splitLinesKE_eq_nil_iff (d :: ds)).mp hcon
        cases hsplit : splitLinesKE (d :: ds) with
        | nil => exact absurd hsplit hspne
        | cons l0 ls => rfl

/-- A nonempty text without interior newlines is a single line. -/
theorem splitLinesKE_single (l : List Char) (hne : l ≠ [])
    (hmid : ∀ c ∈ l.dropLast, c ≠ '\n') : splitLinesKE l = [l] := by
  induction l with
  | nil => exact absurd rfl hne
  | cons c rest ih =>
    cases rest with
    | nil =>
      by_cases hc : c = '\n'
      · subst hc
        rw [splitLinesKE_cons_nl, splitLinesKE_nil]
      · rw [splitLinesKE_cons_ne c [] hc, splitLinesKE_nil]
    | cons d ds =>
      have hc : c ≠ '\n' := by
        apply hmid c
        rw [List.dropLast_cons₂]
        exact List.mem_cons_self c _
      rw [splitLinesKE_cons_ne c _ hc]
      have hrec : splitLinesKE (d :: ds) = [d :: ds] := by
        apply ih (by simp)
        intro x hx
        apply hmid x
        rw [List.dropLast_cons₂]
        exact List.mem_cons_of_mem c hx
      rw [hrec]

/-- Splitting the concatenation of complete, newline-terminated lines without
interior newlines recovers exactly those lines. -/
theorem splitLinesKE_flatten_units (us : List (List Char))
    (h : ∀ u ∈ us, u ≠ [] ∧ (∀ c ∈ u.dropLast, c ≠ '\n') ∧ u.getLast? = some '\n') :
    splitLinesKE us.flatten = us := by
  induction us with
  | nil => rfl
  | cons u rest ih =>
    rw [List.flatten_cons]
    obtain ⟨hne, hmid, hlast⟩ := h u (List.mem_cons_self u rest)
    rw [splitLinesKE_append u rest.flatten hlast]
    rw [splitLinesKE_single u hne hmid]
    rw [ih (fun v hv => h v (List.mem_cons_of_mem u hv))]
    rfl

/-- `dropBlank` distributes over an append whose first part ends in a
newline. -/
theorem dropBlank_append (a b : List Char) (h : a.getLast? = some '\n') :
    dropBlank (a ++ b) = dropBlank a ++ dropBlank b := by
  unfold dropBlank
  rw [splitLinesKE_append a b h, List.filter_append, List.flatten_append]
/-- The two-character marker is recovered by `take 2`, and the payload by
`drop 2`. -/
theorem opMark_take_drop (op : DiffOp) (l : List Char) :
    (opMark op ++ l).take 2 = opMark op ∧ (opMark op ++ l).drop 2 = l := by
  cases op <;> exact ⟨rfl, rfl⟩

/-- Distinct operations have distinct markers. -/
theorem opMark_inj (op op2 : DiffOp) : opMark op = opMark op2 ↔ op = op2 := by
  cases op <;> cases op2 <;> simp [opMark]

/-- Every rendered line of a newline-terminated chunk is nonempty, has no
interior newline, and ends in a newline. -/
theorem unitsOf_props (od : DiffOp × List Char) (hterm : od.2.getLast? = some '\n') :
    ∀ u ∈ unitsOf od, u ≠ [] ∧ (∀ c ∈ u.dropLast, c ≠ '\n') ∧ u.getLast? = some '\n' := by
  intro u hu
  rcases List.mem_map.mp hu with ⟨l, hl, rfl⟩
  have hlmem : l ∈ splitLinesKE od.2 := List.mem_of_mem_filter hl
  have hlne : l ≠ [] := splitLinesKE_ne_nil_mem od.2 l hlmem
  have hlast : l.getLast? = some '\n' := splitLinesKE_last_nl od.2 hterm l hlmem
  have hmid : ∀ c ∈ l.dropLast, c ≠ '\n' := splitLinesKE_no_mid_nl od.2 l hlmem
  refine ⟨by cases od.1 <;> simp [opMark], ?_, ?_⟩
  · intro c hc
    rw [List.dropLast_append_of_ne_nil _ hlne] at hc
    rcases List.mem_append.mp hc with h1 | h1
    · have hmark : ∀ x ∈ opMark od.1, x ≠ '\n' := by cases od.1 <;> decide
      exact hmark c h1
    · exact hmid c h1
  · rw [List.getLast?_append, hlast]
    rfl

/-- The rendered output is the concatenation of the per-chunk rendered
lines. -/
theorem renderOps_eq_flatten (diffs : List (DiffOp × List Char)) :
    renderOps diffs = ((diffs.map unitsOf).flatten).flatten := by
  unfold renderOps unitsOf keptLines
  rw [List.flatten_flatten, List.map_map]
  rfl

/-- Splitting the rendered output recovers exactly the rendered lines. -/
theorem splitLinesKE_renderOps (diffs : List (DiffOp × List Char))
    (hterm : ∀ p ∈ diffs, p.2.getLast? = some '\n') :
    splitLinesKE (renderOps diffs) = (diffs.map unitsOf).flatten := by
  rw [renderOps_eq_flatten]
  apply splitLinesKE_flatten_units
  intro u hu
  rcases List.mem_flatten.mp hu with ⟨us, hus, huu⟩
  rcases List.mem_map.mp hus with ⟨od, hod, rfl⟩
  exact unitsOf_props od (hterm od hod) u huu

/-- Extracting the lines a marker-selector keeps from the rendered line list
yields the blank-stripped text of the corresponding diff side. -/
theorem extract_units (P : DiffOp → Bool) (f : List Char → Option (List Char))
    (hf : ∀ (op : DiffOp) (l : List Char), f (opMark op ++ l) = if P op then some l else none) :
    ∀ diffs : List (DiffOp × List Char), (∀ p ∈ diffs, p.2.getLast? = some '\n') →
      ((((diffs.map unitsOf).flatten).filterMap f)).flatten = dropBlank (sideText P diffs) := by
  intro diffs
  induction diffs with
  | nil => intro _; rfl
  | cons od rest ih =>
    intro hterm
    rw [List.map_cons, List.flatten_cons, List.filterMap_append, List.flatten_append]
    rw [ih (fun p hp => hterm p (List.mem_cons_of_mem od hp))]
    have hchunk : ((unitsOf od).filterMap f).flatten = if P od.1 then dropBlank od.2 else [] := by
      unfold unitsOf
      rw [List.filterMap_map]
      have hcomp : (f ∘ fun l => opMark od.1 ++ l) = fun l => if P od.1 then some l else none := by
        funext l
        exact hf od.1 l
      rw [hcomp]
      by_cases hP : P od.1 = true
      · simp [hP, dropBlank, keptLines]
      · simp [hP]
    rw [hchunk]
    by_cases hP : P od.1 = true
    · rw [if_pos hP]
      have hside : sideText P (od :: rest) = od.2 ++ sideText P rest := by
        simp [sideText, List.filterMap_cons, hP]
      rw [hside, dropBlank_append od.2 _ (hterm od (List.mem_cons_self od rest))]
    · rw [if_neg hP]
      have hside : sideText P (od :: rest) = sideText P rest := by
        simp [sideText, List.filterMap_cons, hP]
      rw [hside]
      rfl
/-- Counterexample to C5: rendering the creation diff of `"a\n\nb\n"` (the
library's early return for an empty before-text is a single insertion chunk)
and concatenating its insertion-marked lines with the prefix removed yields
`"a\nb\n"`, not the original text — the blank line has been dropped by the
renderer. -/
theorem render_roundtrip_cex :
    markedLines (opMark DiffOp.ins)
        (generate_highlighted_diff dmpLineDiffModel [] ("a\n\nb\n".data)) = ("a\nb\n".data)
    ∧ ("a\nb\n".data) ≠ ("a\n\nb\n".data) := by
  constructor
  · decide
  · decide

/-- C5 amended: for any line-level diff of `(before, after)` satisfying the
diff-match-patch reconstruction contract and whose chunks are fully
newline-terminated, concatenating the NON-deletion-marked lines of the
rendered diff with their prefixes removed reconstructs `after` with its
whitespace-only lines removed, and the non-insertion-marked lines likewise
reconstruct `before` with its whitespace-only lines removed; when the diff is
pure insertion (the `render("", after)` case), already the insertion-marked
lines alone reconstruct `after` with its whitespace-only lines removed. -/
theorem render_reconstructs_sides (lineDiff : List Char → List Char → List (DiffOp × List Char))
    (text1 text2 : List Char)
    (hb : sideText notIns (lineDiff text1 text2) = text1)
    (ha : sideText notDel (lineDiff text1 text2) = text2)
    (hterm : ∀ p ∈ lineDiff text1 text2, p.2.getLast? = some '\n') :
    reconstructSide (opMark DiffOp.del) (generate_highlighted_diff lineDiff text1 text2)
      = dropBlank text2
    ∧ reconstructSide (opMark DiffOp.ins) (generate_highlighted_diff lineDiff text1 text2)
      = dropBlank text1
    ∧ ((∀ p ∈ lineDiff text1 text2, p.1 = DiffOp.ins) →
        markedLines (opMark DiffOp.ins) (generate_highlighted_diff lineDiff text1 text2)
          = dropBlank text2) := by
  have key : ∀ (P : DiffOp → Bool) (f : List Char → Option (List Char)),
      (∀ (op : DiffOp) (l : List Char), f (opMark op ++ l) = if P op then some l else none) →
      ((splitLinesKE (renderOps (lineDiff text1 text2))).filterMap f).flatten
        = dropBlank (sideText P (lineDiff text1 text2)) := by
    intro P f hf
    rw [splitLinesKE_renderOps _ hterm]
    exact extract_units P f hf _ hterm
  refine ⟨?_, ?_, ?_⟩
  · have h := key notDel
      (fun l => if l.take 2 = opMark DiffOp.del then none else some (l.drop 2))
      (by
        intro op l
        dsimp only
        rw [show (opMark op ++ l).take 2 = opMark op from (opMark_take_drop op l).1]
        rw [show (opMark op ++ l).drop 2 = l from (opMark_take_drop op l).2]
        cases op <;> rfl)
    unfold reconstructSide generate_highlighted_diff
    rw [h, ha]
  · have h := key notIns
      (fun l => if l.take 2 = opMark DiffOp.ins then none else some (l.drop 2))
      (by
        intro op l
        dsimp only
        rw [show (opMark op ++ l).take 2 = opMark op from (opMark_take_drop op l).1]
        rw [show (opMark op ++ l).drop 2 = l from (opMark_take_drop op l).2]
        cases op <;> rfl)
    unfold reconstructSide generate_highlighted_diff
    rw [h, hb]
  · intro hall
    have h := key isIns
      (fun l => if l.take 2 = opMark DiffOp.ins then some (l.drop 2) else none)
      (by
        intro op l
        dsimp only
        rw [show (opMark op ++ l).take 2 = opMark op from (opMark_take_drop op l).1]
        rw [show (opMark op ++ l).drop 2 = l from (opMark_take_drop op l).2]
        cases op <;> rfl)
    unfold markedLines generate_highlighted_diff
    rw [h]
    have hsides : sideText isIns (lineDiff text1 text2) = sideText notDel (lineDiff text1 text2) := by
      unfold sideText
      rw [List.filterMap_congr]
      intro p hp
      rw [hall p hp]
      rfl
    rw [hsides, ha]

/-- Witness for C5 amended at a concrete newline-terminated diff. -/
theorem render_reconstructs_sides_w :
    reconstructSide (opMark DiffOp.del)
        (generate_highlighted_diff dmpLineDiffModel ("x\n".data) ("x\ny\n".data))
      = dropBlank ("x\ny\n".data)
    ∧ reconstructSide (opMark DiffOp.ins)
        (generate_highlighted_diff dmpLineDiffModel ("x\n".data) ("x\ny\n".data))
      = dropBlank ("x\n".data) :=
  have h := render_reconstructs_sides dmpLineDiffModel ("x\n".data) ("x\ny\n".data)
    (by decide) (by decide) (by decide)
  ⟨h.1, h.2.1⟩
